import Mathlib

/-!
Verification development for the ddos-monitor backend core:
normalization policies, identifier hashing, the shared counter and
recent-history store, geo enrichment, and the pub/sub broadcast fan-out.
Each Python function of the backend is embedded as an executable Lean
definition, and the specified properties are proved about these
definitions.
-/

set_option maxRecDepth 10000

namespace DDoSMonitor

/-! Embedding of backend/app/ingestion/normalizer.py -/

/-- Maps an AbuseIPDB confidence score (0-100) to a severity level.
From confidence_to_severity in normalizer.py. -/
def confidence_to_severity (score : Rat) : String :=
  if 95 ≤ score then "Critical"
  else if 85 ≤ score then "High"
  else if 75 ≤ score then "Medium"
  else "Low"

/-- The ABUSEIPDB_CATEGORY_MAP dict from normalizer.py, as a lookup. -/
def ABUSEIPDB_CATEGORY_MAP (c : Int) : Option String :=
  if c = 4 then some "Volumetric"
  else if c = 14 then some "SYN Flood"
  else if c = 18 then some "HTTP Flood"
  else if c = 21 then some "HTTP Flood"
  else if c = 19 then some "Botnet-Driven"
  else if c = 20 then some "Botnet-Driven"
  else none

/-- First category in the list that has a map entry wins; default is
Volumetric. From map_categories_to_attack_type in normalizer.py. -/
def map_categories_to_attack_type : List Int → String
  | [] => "Volumetric"
  | c :: rest =>
    match ABUSEIPDB_CATEGORY_MAP c with
    | some t => t
    | none => map_categories_to_attack_type rest

/-! Embedding of Attack.hash_ip (models/attack.py): SHA-256 hex digest of
the UTF-8 bytes of the identifier, exactly as hashlib.sha256 computes it.
Words are Nat reduced mod 2 ^ 32. -/

namespace SHA256

def M32 : Nat := 4294967296

def rotr (n x : Nat) : Nat := ((x >>> n) ||| (x <<< (32 - n))) % M32

def shr (n x : Nat) : Nat := x >>> n

def bigSigma0 (x : Nat) : Nat := (rotr 2 x) ^^^ (rotr 13 x) ^^^ (rotr 22 x)

def bigSigma1 (x : Nat) : Nat := (rotr 6 x) ^^^ (rotr 11 x) ^^^ (rotr 25 x)

def smallSigma0 (x : Nat) : Nat := (rotr 7 x) ^^^ (rotr 18 x) ^^^ (shr 3 x)

def smallSigma1 (x : Nat) : Nat := (rotr 17 x) ^^^ (rotr 19 x) ^^^ (shr 10 x)

def ch (x y z : Nat) : Nat := (x &&& y) ^^^ ((x ^^^ 4294967295) &&& z)

def maj (x y z : Nat) : Nat := (x &&& y) ^^^ (x &&& z) ^^^ (y &&& z)

def K : List Nat :=
  [1116352408, 1899447441, 3049323471, 3921009573, 961987163,
   1508970993, 2453635748, 2870763221, 3624381080, 310598401,
   607225278, 1426881987, 1925078388, 2162078206, 2614888103,
   3248222580, 3835390401, 4022224774, 264347078, 604807628,
   770255983, 1249150122, 1555081692, 1996064986, 2554220882,
   2821834349, 2952996808, 3210313671, 3336571891, 3584528711,
   113926993, 338241895, 666307205, 773529912, 1294757372,
   1396182291, 1695183700, 1986661051, 2177026350, 2456956037,
   2730485921, 2820302411, 3259730800, 3345764771, 3516065817,
   3600352804, 4094571909, 275423344, 430227734, 506948616,
   659060556, 883997877, 958139571, 1322822218, 1537002063,
   1747873779, 1955562222, 2024104815, 2227730452, 2361852424,
   2428436474, 2756734187, 3204031479, 3329325298]

def H0 : List Nat :=
  [1779033703, 3144134277, 1013904242, 2773480762, 1359893119,
   2600822924, 528734635, 1541459225]

/-- Pad the byte message to a multiple of 64 bytes: a 0x80 byte, zeros,
then the bit length as 8 big-endian bytes. -/
def padMessage (msg : List Nat) : List Nat :=
  let l := msg.length
  let k := (120 - ((l + 1) % 64)) % 64
  msg ++ [128] ++ List.replicate k 0 ++
    (List.range 8).map (fun i => ((l * 8) >>> (8 * (7 - i))) % 256)

def wordOfBytes (b : List Nat) (i : Nat) : Nat :=
  (b.getD (4 * i) 0) * 16777216 + (b.getD (4 * i + 1) 0) * 65536 +
    (b.getD (4 * i + 2) 0) * 256 + b.getD (4 * i + 3) 0

/-- Message schedule: 16 big-endian words of the block, extended to 64. -/
def schedule (block : List Nat) : List Nat :=
  let w16 := (List.range 16).map (wordOfBytes block)
  (List.range 48).foldl
    (fun w t =>
      w ++ [(smallSigma1 (w.getD (t + 14) 0) + w.getD (t + 9) 0 +
             smallSigma0 (w.getD (t + 1) 0) + w.getD t 0) % M32])
    w16

def compressStep (kt wt : Nat) (st : List Nat) : List Nat :=
  match st with
  | [a, b, c, d, e, f, g, h] =>
    let t1 := (h + bigSigma1 e + ch e f g + kt + wt) % M32
    let t2 := (bigSigma0 a + maj a b c) % M32
    [(t1 + t2) % M32, a, b, c, (d + t1) % M32, e, f, g]
  | other => other

def compressBlock (hv block : List Nat) : List Nat :=
  let w := schedule block
  let hs := (List.range 64).foldl
    (fun st t => compressStep (K.getD t 0) (w.getD t 0) st) hv
  List.zipWith (fun x y => (x + y) % M32) hv hs

def sha256Bytes (msg : List Nat) : List Nat :=
  let padded := padMessage msg
  let hv := (List.range (padded.length / 64)).foldl
    (fun hv i => compressBlock hv ((padded.drop (64 * i)).take 64)) H0
  hv.flatMap (fun w => [(w >>> 24) % 256, (w >>> 16) % 256, (w >>> 8) % 256, w % 256])

def hexChar : Nat → Char
  | 0 => '0' | 1 => '1' | 2 => '2' | 3 => '3' | 4 => '4' | 5 => '5'
  | 6 => '6' | 7 => '7' | 8 => '8' | 9 => '9' | 10 => 'a' | 11 => 'b'
  | 12 => 'c' | 13 => 'd' | 14 => 'e' | _ => 'f'

def bytesToHex (bs : List Nat) : List Char :=
  bs.flatMap (fun b => [hexChar (b / 16 % 16), hexChar (b % 16)])

def sha256hex (msg : List Nat) : String :=
  String.mk (bytesToHex (sha256Bytes msg))

end SHA256

/-- UTF-8 encoding of one character as a byte list. -/
def utf8Char (c : Char) : List Nat :=
  let n := c.toNat
  if n < 128 then [n]
  else if n < 2048 then [192 + n / 64, 128 + n % 64]
  else if n < 65536 then [224 + n / 4096, 128 + n / 64 % 64, 128 + n % 64]
  else [240 + n / 262144, 128 + n / 4096 % 64, 128 + n / 64 % 64, 128 + n % 64]

/-- UTF-8 bytes of a string, as ip.encode() produces them. -/
def strBytes (s : String) : List Nat := s.data.flatMap utf8Char

/-- Attack.hash_ip from models/attack.py: hashlib.sha256(ip.encode()).hexdigest(). -/
def hash_ip (ip : String) : String := SHA256.sha256hex (strBytes ip)

/-! Normalization of AbuseIPDB entries (normalizer.py). An entry is the
relevant subset of one blacklist dict; every field models dict.get with
its default. The impure parts of the Python function (uuid.uuid4 and
datetime.now) are passed in explicitly. -/

structure AbuseEntry where
  ipAddress : Option String
  abuseConfidenceScore : Option Rat
  countryCode : Option String
  totalReports : Option Int
  categories : Option (List Int)
deriving DecidableEq

structure AttackDict where
  id : String
  source_ip_hash : String
  source_country : Option String
  source_lat : Option Rat
  source_lng : Option Rat
  target_country : Option String
  target_lat : Option Rat
  target_lng : Option Rat
  attack_type : String
  severity : String
  confidence_score : Rat
  raw_report_count : Int
  data_source : String
  protocol : Option String
  volume_bps : Option Int
  timestamp : String
deriving DecidableEq

/-- Python `x or y` on optional strings: None and "" are falsy. -/
def orElseStr (x y : Option String) : Option String :=
  match x with
  | some s => if s = "" then y else some s
  | none => y

/-- normalize_abuseipdb_entry from normalizer.py. genId stands for the
str(uuid.uuid4()) call and nowIso for datetime.now(timezone.utc).isoformat(). -/
def normalize_abuseipdb_entry (genId nowIso : String) (entry : AbuseEntry)
    (source_country : Option String) (source_lat source_lng : Option Rat) :
    AttackDict :=
  let raw_ip := entry.ipAddress.getD ""
  let confidence := entry.abuseConfidenceScore.getD 0
  let categories := entry.categories.getD []
  let country := orElseStr entry.countryCode source_country
  { id := genId
    source_ip_hash := hash_ip raw_ip
    source_country := country
    source_lat := source_lat
    source_lng := source_lng
    target_country := none
    target_lat := none
    target_lng := none
    attack_type := map_categories_to_attack_type categories
    severity := confidence_to_severity confidence
    confidence_score := confidence
    raw_report_count := entry.totalReports.getD 1
    data_source := "abuseipdb"
    protocol := none
    volume_bps := none
    timestamp := nowIso }

structure AbuseResponse where
  data : List AbuseEntry
deriving DecidableEq

/-- One normalize_abuseipdb_entry call per kept entry, each with its own
fresh id from the supply. -/
def normalizeKept (freshIds : Nat → String) (nowIso : String) :
    List AbuseEntry → List AttackDict
  | [] => []
  | e :: rest =>
    normalize_abuseipdb_entry (freshIds 0) nowIso e none none none ::
      normalizeKept (fun i => freshIds (i + 1)) nowIso rest

/-- normalize_abuseipdb_response from normalizer.py: the comprehension
keeps exactly the entries with abuseConfidenceScore (default 0) >= 80. -/
def normalize_abuseipdb_response (freshIds : Nat → String) (nowIso : String)
    (raw : AbuseResponse) : List AttackDict :=
  normalizeKept freshIds nowIso
    (raw.data.filter (fun e => 80 ≤ e.abuseConfidenceScore.getD 0))

/-! Embedding of backend/app/geoip.py. The static country_coords.json
table is a parameter (it is data, not code); get returns the entry for
the upper-cased code or nothing. -/

/-- Python str.upper() on the ASCII region codes the table is keyed by. -/
def pyUpper (s : String) : String := String.mk (s.data.map Char.toUpper)

/-- get_coords_for_country from geoip.py. -/
def get_coords_for_country (table : String → Option (Rat × Rat))
    (country_code : String) : Option Rat × Option Rat :=
  if country_code = "" then (none, none)
  else
    match table (pyUpper country_code) with
    | none => (none, none)
    | some p => (some p.1, some p.2)

/-- Python truthiness of an optional string (None and "" are falsy). -/
def truthyStr : Option String → Bool
  | none => false
  | some s => !(s = "")

/-- Python truthiness of an optional number (None and 0 are falsy). -/
def truthyRat : Option Rat → Bool
  | none => false
  | some x => !(x = 0)

/-- The source-side block of enrich_attack_with_geo (geoip.py): fill
source lat/lng from the table when the source country is truthy and the
stored source_lat is falsy (None or 0). -/
def enrichSource (table : String → Option (Rat × Rat))
    (attack : AttackDict) : AttackDict :=
  if truthyStr attack.source_country && !(truthyRat attack.source_lat) then
    let p := get_coords_for_country table (attack.source_country.getD "")
    { attack with source_lat := p.1, source_lng := p.2 }
  else attack

/-- The target-side block of enrich_attack_with_geo (geoip.py). -/
def enrichTarget (table : String → Option (Rat × Rat))
    (attack : AttackDict) : AttackDict :=
  if truthyStr attack.target_country && !(truthyRat attack.target_lat) then
    let p := get_coords_for_country table (attack.target_country.getD "")
    { attack with target_lat := p.1, target_lng := p.2 }
  else attack

/-- enrich_attack_with_geo from geoip.py: the source-side block runs,
then the target-side block (the two touch disjoint fields, exactly as
the sequential dict mutations do). -/
def enrich_attack_with_geo (table : String → Option (Rat × Rat))
    (attack : AttackDict) : AttackDict :=
  enrichTarget table (enrichSource table attack)

/-! Embedding of the recent-attacks list (redis_client.py): LPUSH then
LTRIM 0 99 then EXPIRE 3600, and LRANGE 0 (limit-1) for reads. The list
state is newest-first, as Redis stores it. -/

def MAX_RECENT_ATTACKS : Nat := 100

/-- push_recent_attack from redis_client.py: LPUSH + LTRIM 0 99. -/
def push_recent_attack (attack_json : String) (recent : List String) :
    List String :=
  (attack_json :: recent).take MAX_RECENT_ATTACKS

/-- Redis LRANGE key 0 stop: a negative stop counts from the end. -/
def lrangeFrom0 (stop : Int) (l : List String) : List String :=
  if stop < 0 then l.take (l.length + stop + 1).toNat
  else l.take (stop.toNat + 1)

/-- get_recent_attacks from redis_client.py: LRANGE 0 (limit - 1). -/
def get_recent_attacks (limit : Int) (recent : List String) : List String :=
  lrangeFrom0 (limit - 1) recent

/-- Folding push_recent_attack over a sequence of pushes, oldest first. -/
def pushAllRecent (events recent : List String) : List String :=
  events.foldl (fun st e => push_recent_attack e st) recent

/-! Embedding of the today/yesterday counters (redis_client.py). The
rotation in rotate_day_counter is NOT one atomic command: it is a GET of
counter:today followed by a pipelined SETEX/DEL. The model therefore
splits rotation into a read step and a write step, with increments
(INCR, always by 1 from the scheduler) free to interleave; a fourth step
models the 25h SETEX TTL on counter:yesterday lapsing. A key holding no
value is `none`; INCR of an absent key yields 1; any stored string —
even "0" — is truthy for the `if today_val` test. -/

inductive RotPhase
  | idle
  | readDone (pending : Option Nat)
  | finished
deriving DecidableEq

structure CtrState where
  today : Option Nat
  yesterday : Option Nat
  yesterdayTTL : Option Nat
  phase : RotPhase
deriving DecidableEq

inductive CtrStep
  | incr
  | rotRead
  | rotWrite
  | expireYesterday
deriving DecidableEq

def ctrStep (s : CtrState) : CtrStep → CtrState
  | CtrStep.incr => { s with today := some (s.today.getD 0 + 1) }
  | CtrStep.rotRead =>
    match s.phase with
    | RotPhase.idle => { s with phase := RotPhase.readDone s.today }
    | _ => s
  | CtrStep.rotWrite =>
    match s.phase with
    | RotPhase.readDone pending =>
      match pending with
      | some v =>
        { s with yesterday := some v, yesterdayTTL := some 90000,
                 today := none, phase := RotPhase.finished }
      | none => { s with today := none, phase := RotPhase.finished }
    | _ => s
  | CtrStep.expireYesterday =>
    match s.yesterdayTTL with
    | some _ => { s with yesterday := none, yesterdayTTL := none }
    | none => s

def ctrRun (s : CtrState) (steps : List CtrStep) : CtrState :=
  steps.foldl ctrStep s

/-- get_today_counter from redis_client.py: 0 when the key is absent. -/
def get_today_counter (s : CtrState) : Nat := s.today.getD 0

/-- get_yesterday_counter from redis_client.py: None when absent. -/
def get_yesterday_counter (s : CtrState) : Option Nat := s.yesterday

/-! Embedding of backend/app/ws_manager.py. Connections are numbered; the
registry is a finite set mirroring the Python set; whether a given
connection's send_json succeeds is a parameter ok. -/

def wsRegister (active : Finset Nat) (ws : Nat) : Finset Nat :=
  insert ws active

def wsUnregister (active : Finset Nat) (ws : Nat) : Finset Nat :=
  active.erase ws

/-- ConnectionManager.broadcast: try each member of a snapshot of the
registry, collect the members whose send failed, and discard them.
Returns (registry afterwards, members that received the message). -/
def wsBroadcast (active : Finset Nat) (ok : Nat → Bool) :
    Finset Nat × Finset Nat :=
  let dead := active.filter (fun ws => ok ws = false)
  (active \ dead, active.filter (fun ws => ok ws = true))

structure PubSubMsg where
  mtype : String
  payload : String
deriving DecidableEq

/-- One iteration of the redis_pubsub_listener message loop: non-"message"
frames are skipped, and json.loads failure (decode returns none) is
caught and skipped. -/
def decodeStep (decode : String → Option String) (m : PubSubMsg) :
    Option String :=
  if m.mtype = "message" then decode m.payload else none

/-- The listener's message loop over a batch of channel deliveries:
each decodable payload is broadcast through the shared manager, whose
registry threads from one broadcast to the next. Returns the final
registry and, per broadcast event, the set of connections that received
it. -/
def listenerRun (decode : String → Option String) (ok : Nat → Bool)
    (active : Finset Nat) : List PubSubMsg → Finset Nat × List (String × Finset Nat)
  | [] => (active, [])
  | m :: rest =>
    match decodeStep decode m with
    | none => listenerRun decode ok active rest
    | some e =>
      let b := wsBroadcast active ok
      let r := listenerRun decode ok b.1 rest
      (r.1, (e, b.2) :: r.2)

/-! The reconnect backoff of redis_pubsub_listener: backoff starts at 1;
a successful subscribe resets it to 1; a failure sleeps for the current
backoff and then doubles it, capped at 30. An outcome trace lists
subscribe successes (true) and connection failures (false); the run
returns the final backoff and the sleep durations in order. -/

def backoffRun : Nat → List Bool → Nat × List Nat
  | b, [] => (b, [])
  | _, true :: rest => backoffRun 1 rest
  | b, false :: rest =>
    let r := backoffRun (min (b * 2) 30) rest
    (r.1, b :: r.2)

/-! Substring containment on strings, used to state the privacy claim
that no Event field contains the raw identifier. -/

/-- True when the first list is an initial segment of the second. -/
def leadsChars : List Char → List Char → Bool
  | [], _ => true
  | _ :: _, [] => false
  | c :: cs, d :: ds => c == d && leadsChars cs ds

/-- True when the first list occurs contiguously inside the second. -/
def containsChars (needle : List Char) : List Char → Bool
  | [] => needle.isEmpty
  | d :: ds => leadsChars needle (d :: ds) || containsChars needle ds

/-- True when needle occurs contiguously inside hay (equality included). -/
def strContains (hay needle : String) : Bool :=
  containsChars needle.data hay.data

/-- The sixteen characters a hex digest is made of. -/
def hexDigits : List Char := "0123456789abcdef".data

/-- A concrete AbuseIPDB blacklist entry used as witness input. -/
def entry0 : AbuseEntry :=
  { ipAddress := some "1.2.3.4", abuseConfidenceScore := some 92,
    countryCode := some "CN", totalReports := some 45,
    categories := some [4, 14] }

/-- A concrete IPv6 AbuseIPDB blacklist entry used as witness input. -/
def entry6 : AbuseEntry :=
  { ipAddress := some "2001:db8::1", abuseConfidenceScore := some 90,
    countryCode := some "US", totalReports := some 3,
    categories := some [4] }

/-- A realistic datetime.now(timezone.utc).isoformat() value, with the
microsecond field and therefore a dot. -/
def isoTs : String := "2026-02-25T10:00:00.123456+00:00"

/-- A concrete region table with one centroid, used as counterexample and
witness input. -/
def demoTable (c : String) : Option (Rat × Rat) :=
  if c = "CN" then some (35, 103) else none

/-- An attack dict whose source coordinates are set to 0 (the equator):
set in the spec's sense, falsy for the code's guard. -/
def demoAttack : AttackDict :=
  { id := "id-1", source_ip_hash := "h", source_country := some "CN",
    source_lat := some 0, source_lng := some 0, target_country := none,
    target_lat := none, target_lng := none, attack_type := "Volumetric",
    severity := "Low", confidence_score := 90, raw_report_count := 1,
    data_source := "abuseipdb", protocol := none, volume_bps := none,
    timestamp := "t" }

/-- An attack dict with nonzero coordinates on both sides. -/
def demoAttack2 : AttackDict :=
  { id := "id-2", source_ip_hash := "h", source_country := some "CN",
    source_lat := some 10, source_lng := some 11,
    target_country := some "US", target_lat := some 20, target_lng := some 21,
    attack_type := "Volumetric", severity := "Low", confidence_score := 90,
    raw_report_count := 1, data_source := "abuseipdb", protocol := none,
    volume_bps := none, timestamp := "t" }

/-! Theorems. -/

theorem pushAllRecent_eq (events : List String) :
    ∀ s : List String, s.length ≤ 100 →
      pushAllRecent events s = (events.reverse ++ s).take 100 := by
  induction events with
  | nil =>
    intro s hs
    simp [pushAllRecent, List.take_of_length_le hs]
  | cons e rest ih =>
    intro s hs
    have h1 : pushAllRecent (e :: rest) s =
        pushAllRecent rest ((e :: s).take 100) := rfl
    rw [h1, ih ((e :: s).take 100) (by simp)]
    rw [List.reverse_cons, List.append_assoc, List.singleton_append]
    rw [List.take_append_eq_append_take, List.take_append_eq_append_take,
      List.take_take]
    have hmin : min (100 - rest.reverse.length) 100 = 100 - rest.reverse.length :=
      Nat.min_eq_left (Nat.sub_le 100 _)
    rw [hmin]

/-- C5: the stored recent-history never exceeds 100 entries, and after
pushing 150 distinct events GetRecent(200) returns exactly the 100 most
recently pushed events, newest first (the reverse of the push order,
truncated to 100). -/
theorem push_recent_bounded (events s : List String)
    (hs : s.length ≤ 100) (h150 : events.length = 150) :
    (pushAllRecent events s).length ≤ 100 ∧
    get_recent_attacks 200 (pushAllRecent events []) = events.reverse.take 100 ∧
    (get_recent_attacks 200 (pushAllRecent events [])).length = 100 := by
  have key := pushAllRecent_eq events s hs
  have key0 := pushAllRecent_eq events [] (by simp)
  rw [List.append_nil] at key0
  have hlen : (pushAllRecent events []).length = 100 := by
    rw [key0, List.length_take, List.length_reverse, h150]
    omega
  have hget : get_recent_attacks 200 (pushAllRecent events []) =
      pushAllRecent events [] := by
    have : get_recent_attacks 200 (pushAllRecent events []) =
        (pushAllRecent events []).take 200 := rfl
    rw [this, List.take_of_length_le (by rw [hlen]; omega)]
  refine ⟨?_, ?_, ?_⟩
  · rw [key, List.length_take]; omega
  · rw [hget, key0]
  · rw [hget, hlen]

/-- C5 witness: the bound theorem applied to 150 concrete pushes. -/
theorem push_recent_bounded_witness :
    ((List.range 150).map (fun n => toString n)).length = 150 ∧
    (get_recent_attacks 200
      (pushAllRecent ((List.range 150).map (fun n => toString n)) [])).length
      = 100 := by
  have h150 : ((List.range 150).map (fun n => toString n)).length = 150 := by
    simp
  exact ⟨h150,
    (push_recent_bounded ((List.range 150).map (fun n => toString n)) []
      (by simp) h150).2.2⟩

/-- C2: for every confidence score in [0,100] the classifier returns
Critical when the score is at least 95, High on [85,95), Medium on
[75,85) and Low below 75; the boundary scores 95, 85 and 75 map to the
higher tier. -/
theorem confidence_severity_tiers (s : Rat) (_h0 : 0 ≤ s) (_h100 : s ≤ 100) :
    (95 ≤ s → confidence_to_severity s = "Critical") ∧
    (85 ≤ s ∧ s < 95 → confidence_to_severity s = "High") ∧
    (75 ≤ s ∧ s < 85 → confidence_to_severity s = "Medium") ∧
    (s < 75 → confidence_to_severity s = "Low") ∧
    confidence_to_severity 95 = "Critical" ∧
    confidence_to_severity 85 = "High" ∧
    confidence_to_severity 75 = "Medium" := by
  unfold confidence_to_severity
  refine ⟨fun h => ?_, fun h => ?_, fun h => ?_, fun h => ?_, ?_, ?_, ?_⟩
  · rw [if_pos h]
  · rw [if_neg (by linarith [h.2]), if_pos h.1]
  · rw [if_neg (by linarith [h.2]), if_neg (by linarith [h.2]), if_pos h.1]
  · rw [if_neg (by linarith), if_neg (by linarith), if_neg (by linarith)]
  · norm_num
  · norm_num
  · norm_num

/-- C2 witness: the tier theorem applied at the concrete score 90. -/
theorem confidence_severity_tiers_witness :
    (0 : Rat) ≤ 90 ∧ (90 : Rat) ≤ 100 ∧ confidence_to_severity 90 = "High" := by
  refine ⟨by norm_num, by norm_num, ?_⟩
  exact (confidence_severity_tiers 90 (by norm_num) (by norm_num)).2.1
    ⟨by norm_num, by norm_num⟩

/-- C10: category mapping is first-match-wins with default Volumetric:
the result is the table value of the first listed code that has an
entry, and Volumetric when no listed code matches, including for the
empty list. -/
theorem map_categories_first_match (cats : List Int) :
    map_categories_to_attack_type cats =
      (cats.filterMap ABUSEIPDB_CATEGORY_MAP).headD "Volumetric" ∧
    ((∀ c ∈ cats, ABUSEIPDB_CATEGORY_MAP c = none) →
      map_categories_to_attack_type cats = "Volumetric") ∧
    map_categories_to_attack_type [] = "Volumetric" := by
  refine ⟨?_, ?_, rfl⟩
  · induction cats with
    | nil => rfl
    | cons c rest ih =>
      simp only [map_categories_to_attack_type, List.filterMap_cons]
      cases h : ABUSEIPDB_CATEGORY_MAP c with
      | none => simpa using ih
      | some t => simp
  · intro hall
    induction cats with
    | nil => rfl
    | cons c rest ih =>
      have hc := hall c (List.mem_cons_self c rest)
      simp only [map_categories_to_attack_type, hc]
      exact ih (fun x hx => hall x (List.mem_cons_of_mem c hx))

/-- C10 witness: first-match-wins applied to the list [10, 14, 4] (10 is
unmapped, 14 wins over 4) and the default applied to [99]. -/
theorem map_categories_first_match_witness :
    map_categories_to_attack_type [10, 14, 4] = "SYN Flood" ∧
    map_categories_to_attack_type [99] = "Volumetric" := by
  constructor
  · exact (map_categories_first_match [10, 14, 4]).1.trans (by decide)
  · exact (map_categories_first_match [99]).2.1 (by decide)

theorem backoffRun_min_pow (n : Nat) :
    ∀ k, (backoffRun (min (2 ^ k) 30) (List.replicate n false)).2 =
      (List.range n).map (fun i => min (2 ^ (k + i)) 30) := by
  induction n with
  | zero => intro k; simp [backoffRun]
  | succ m ih =>
    intro k
    have harith : ∀ x : Nat, min (min x 30 * 2) 30 = min (x * 2) 30 := by
      intro x; omega
    have hb : min (min (2 ^ k) 30 * 2) 30 = min (2 ^ (k + 1)) 30 := by
      rw [harith, pow_succ]
    simp only [List.replicate_succ, backoffRun]
    rw [hb, ih (k + 1), List.range_succ_eq_map, List.map_cons, List.map_map]
    congr 1
    apply List.map_congr_left
    intro a _
    simp only [Function.comp_apply]
    have hexp : k + 1 + a = k + (a + 1) := by omega
    rw [hexp]

theorem backoffRun_cap :
    ∀ (trace : List Bool) (b : Nat), b ≤ 30 →
      ∀ d ∈ (backoffRun b trace).2, d ≤ 30 := by
  intro trace
  induction trace with
  | nil => intro b hb d hd; simp [backoffRun] at hd
  | cons o rest ih =>
    intro b hb d hd
    cases o with
    | true => exact ih 1 (by omega) d hd
    | false =>
      simp only [backoffRun] at hd
      rcases List.mem_cons.mp hd with h | h
      · omega
      · exact ih (min (b * 2) 30) (Nat.min_le_right _ _) d h

/-- C8: in the reconnect loop the wait before retry n+1 after the n-th
consecutive failure is min(2^(n-1), 30) time-units (the n-th emitted
delay, counting from 1, is min(2^(n-1), 30)); three consecutive failures
wait 1, 2 and 4; every delay is capped at 30; and a successful
subscription resets the backoff so the next failure waits 1 again. -/
theorem backoff_schedule (n b : Nat) (trace rest : List Bool)
    (_hb1 : 1 ≤ b) (hb30 : b ≤ 30) :
    (backoffRun 1 (List.replicate n false)).2 =
      (List.range n).map (fun i => min (2 ^ i) 30) ∧
    (backoffRun 1 [false, false, false]).2 = [1, 2, 4] ∧
    (∀ d ∈ (backoffRun b trace).2, d ≤ 30) ∧
    (backoffRun b (true :: false :: rest)).2 = 1 :: (backoffRun 2 rest).2 := by
  refine ⟨?_, by decide, backoffRun_cap trace b hb30, ?_⟩
  · have h := backoffRun_min_pow n 0
    simpa using h
  · simp [backoffRun]

/-- C8 witness: the schedule theorem applied with three consecutive
failures from a fresh backoff. -/
theorem backoff_schedule_witness :
    (1 : Nat) ≤ 1 ∧ (backoffRun 1 (List.replicate 3 false)).2 = [1, 2, 4] := by
  have h := backoff_schedule 3 1 [false] [] (le_refl 1) (by omega)
  exact ⟨le_refl 1, h.1.trans (by decide)⟩

theorem ctrRun_replicate_incr (n : Nat) :
    ∀ s : CtrState,
      get_today_counter (ctrRun s (List.replicate n CtrStep.incr)) =
        get_today_counter s + n := by
  induction n with
  | zero => intro s; rfl
  | succ m ih =>
    intro s
    have h1 : ctrRun s (List.replicate (m + 1) CtrStep.incr) =
        ctrRun (ctrStep s CtrStep.incr) (List.replicate m CtrStep.incr) := rfl
    have h2 : get_today_counter (ctrStep s CtrStep.incr) =
        get_today_counter s + 1 := rfl
    rw [h1, ih, h2]
    omega

/-- C1 counterexample: rotation is a GET followed by a separate pipelined
write, so an increment interleaved between the two is lost. Starting
from today = 1, the trace read-increment-write leaves yesterday = 1
although today held 2 immediately before the rotation completed, and the
interleaved increment survives in neither counter (today 0 plus
yesterday 1 totals 1, not 2). Moreover states with both counters absent
are reachable: the fresh state, and any rotation followed by the lapse
of yesterday's 25h retention with no new increments. -/
theorem rotate_day_not_atomic_counterexample :
    (ctrRun ⟨some 1, none, none, RotPhase.idle⟩
      [CtrStep.rotRead, CtrStep.incr]).today = some 2 ∧
    (ctrRun ⟨some 1, none, none, RotPhase.idle⟩
      [CtrStep.rotRead, CtrStep.incr, CtrStep.rotWrite]).yesterday = some 1 ∧
    some (1 : Nat) ≠ some 2 ∧
    (ctrRun ⟨some 1, none, none, RotPhase.idle⟩
      [CtrStep.rotRead, CtrStep.incr, CtrStep.rotWrite]).today = none ∧
    get_today_counter (ctrRun ⟨some 1, none, none, RotPhase.idle⟩
      [CtrStep.rotRead, CtrStep.incr, CtrStep.rotWrite]) +
      (ctrRun ⟨some 1, none, none, RotPhase.idle⟩
        [CtrStep.rotRead, CtrStep.incr, CtrStep.rotWrite]).yesterday.getD 0 = 1 ∧
    (ctrRun ⟨none, none, none, RotPhase.idle⟩ []).today = none ∧
    (ctrRun ⟨none, none, none, RotPhase.idle⟩ []).yesterday = none ∧
    (ctrRun ⟨some 5, none, none, RotPhase.idle⟩
      [CtrStep.rotRead, CtrStep.rotWrite, CtrStep.expireYesterday]).today = none ∧
    (ctrRun ⟨some 5, none, none, RotPhase.idle⟩
      [CtrStep.rotRead, CtrStep.rotWrite, CtrStep.expireYesterday]).yesterday
      = none := by
  decide

/-- C1 amended: RotateDay is a read of today followed by one atomic
write. Run without interleaving it moves today's total (here v) to
yesterday with a 90000-second (25-hour) retention and leaves today
absent; every increment issued strictly after the write step is
reflected in the final today count (exactly n increments yield exactly
n); but the operation is not a single atomic command, and states where
today and yesterday are both absent are reachable (for example a
rotation whose yesterday retention then lapses with no new increments). -/
theorem rotate_day_read_then_write (v : Nat) (y ttl : Option Nat)
    (s : CtrState) (p : Option Nat) (n : Nat)
    (hs : s.phase = RotPhase.readDone p) :
    ctrRun ⟨some v, y, ttl, RotPhase.idle⟩ [CtrStep.rotRead, CtrStep.rotWrite] =
      ⟨none, some v, some 90000, RotPhase.finished⟩ ∧
    (90000 : Nat) = 25 * 3600 ∧
    get_today_counter
      (ctrRun s (CtrStep.rotWrite :: List.replicate n CtrStep.incr)) = n ∧
    (ctrRun ⟨some 5, none, none, RotPhase.idle⟩
      [CtrStep.rotRead, CtrStep.rotWrite, CtrStep.expireYesterday]).today = none ∧
    (ctrRun ⟨some 5, none, none, RotPhase.idle⟩
      [CtrStep.rotRead, CtrStep.rotWrite, CtrStep.expireYesterday]).yesterday
      = none := by
  refine ⟨rfl, rfl, ?_, rfl, rfl⟩
  have hw : (ctrStep s CtrStep.rotWrite).today = none := by
    simp only [ctrStep, hs]
    cases p <;> rfl
  have h1 : ctrRun s (CtrStep.rotWrite :: List.replicate n CtrStep.incr) =
      ctrRun (ctrStep s CtrStep.rotWrite) (List.replicate n CtrStep.incr) := rfl
  rw [h1, ctrRun_replicate_incr]
  unfold get_today_counter
  rw [hw]
  simp

/-- C1 witness: the amended rotation theorem applied to a concrete state
mid-rotation that has read pending value 7, followed by 3 increments. -/
theorem rotate_day_read_then_write_witness :
    (CtrState.mk (some 7) none none (RotPhase.readDone (some 7))).phase
      = RotPhase.readDone (some 7) ∧
    ctrRun ⟨some 7, none, none, RotPhase.idle⟩ [CtrStep.rotRead, CtrStep.rotWrite]
      = ⟨none, some 7, some 90000, RotPhase.finished⟩ ∧
    get_today_counter
      (ctrRun (CtrState.mk (some 7) none none (RotPhase.readDone (some 7)))
        (CtrStep.rotWrite :: List.replicate 3 CtrStep.incr)) = 3 := by
  have h := rotate_day_read_then_write 7 none none
    (CtrState.mk (some 7) none none (RotPhase.readDone (some 7))) (some 7) 3 rfl
  exact ⟨rfl, h.1, h.2.2.1⟩

/-- C6: broadcast delivers the message to exactly those connections that
are registered at broadcast time and whose individual send succeeds; a
connection whose delivery fails is removed from the registry while every
other registered connection still receives the message; and in the
concrete scenario, registering A = 0 and B = 1 delivers E1 to both,
after which unregistering B delivers E2 to A only. -/
theorem broadcast_delivery (active : Finset Nat) (ok : Nat → Bool)
    (ws bad : Nat) (hbad : ok bad = false) (_hmem : bad ∈ active) :
    (ws ∈ (wsBroadcast active ok).2 ↔ ws ∈ active ∧ ok ws = true) ∧
    (ws ∉ active → ws ∉ (wsBroadcast active ok).2) ∧
    (wsBroadcast active ok).1 = active.filter (fun w => ok w = true) ∧
    bad ∉ (wsBroadcast active ok).1 ∧
    (∀ w ∈ active, ok w = true → w ∈ (wsBroadcast active ok).2) ∧
    (0 ∈ (wsBroadcast (wsRegister (wsRegister ∅ 0) 1) (fun _ => true)).2 ∧
     1 ∈ (wsBroadcast (wsRegister (wsRegister ∅ 0) 1) (fun _ => true)).2) ∧
    (0 ∈ (wsBroadcast (wsUnregister (wsRegister (wsRegister ∅ 0) 1) 1)
        (fun _ => true)).2 ∧
     1 ∉ (wsBroadcast (wsUnregister (wsRegister (wsRegister ∅ 0) 1) 1)
        (fun _ => true)).2) := by
  have h2 : (wsBroadcast active ok).2 = active.filter (fun w => ok w = true) :=
    rfl
  have h1 : (wsBroadcast active ok).1 = active.filter (fun w => ok w = true) := by
    ext w
    simp only [wsBroadcast, Finset.mem_sdiff, Finset.mem_filter]
    constructor
    · rintro ⟨hw, hnot⟩
      refine ⟨hw, ?_⟩
      cases h : ok w
      · exact absurd ⟨hw, h⟩ hnot
      · rfl
    · rintro ⟨hw, hok⟩
      refine ⟨hw, fun hc => ?_⟩
      rw [hok] at hc
      exact absurd hc.2 (by simp)
  refine ⟨?_, ?_, h1, ?_, ?_, by decide, by decide⟩
  · rw [h2]; exact Finset.mem_filter
  · intro hws
    rw [h2, Finset.mem_filter]
    exact fun hc => hws hc.1
  · rw [h1, Finset.mem_filter]
    intro hc
    rw [hbad] at hc
    exact absurd hc.2 (by simp)
  · intro w hw hok
    rw [h2, Finset.mem_filter]
    exact ⟨hw, hok⟩

/-- C6 witness: the broadcast theorem applied to the registry {0, 1} with
connection 1 failing: 1 is removed, 0 still receives. -/
theorem broadcast_delivery_witness :
    ((fun w => w == 0) 1 = false) ∧
    1 ∈ wsRegister (wsRegister ∅ 0) 1 ∧
    1 ∉ (wsBroadcast (wsRegister (wsRegister ∅ 0) 1) (fun w => w == 0)).1 ∧
    0 ∈ (wsBroadcast (wsRegister (wsRegister ∅ 0) 1) (fun w => w == 0)).2 := by
  have h := broadcast_delivery (wsRegister (wsRegister ∅ 0) 1)
    (fun w => w == 0) 0 1 (by decide) (by decide)
  exact ⟨by decide, by decide, h.2.2.2.1, h.1.mpr ⟨by decide, by decide⟩⟩

/-- C7: an undecodable payload on the channel is skipped — it is
broadcast to no one and the listener run over the remaining messages is
unchanged — and a valid event published after it is still broadcast to
every registered connection. -/
theorem listener_skips_malformed (decode : String → Option String)
    (ok : Nat → Bool) (active : Finset Nat) (bad good : PubSubMsg)
    (msgs : List PubSubMsg) (e : String)
    (hbadT : bad.mtype = "message") (hbadP : decode bad.payload = none)
    (hgoodT : good.mtype = "message") (hgoodP : decode good.payload = some e)
    (hok : ∀ w ∈ active, ok w = true) :
    listenerRun decode ok active (bad :: msgs) =
      listenerRun decode ok active msgs ∧
    listenerRun decode ok active [bad, good] = (active, [(e, active)]) := by
  have hdead : active.filter (fun w => ok w = false) = ∅ := by
    apply Finset.filter_false_of_mem
    intro w hw
    rw [hok w hw]
    simp
  have hb : wsBroadcast active ok = (active, active) := by
    unfold wsBroadcast
    simp only [hdead, Finset.sdiff_empty, Finset.filter_true_of_mem hok]
  have hskip : ∀ rest : List PubSubMsg,
      listenerRun decode ok active (bad :: rest) =
        listenerRun decode ok active rest := by
    intro rest
    simp [listenerRun, decodeStep, hbadT, hbadP]
  refine ⟨hskip msgs, ?_⟩
  rw [hskip [good]]
  simp [listenerRun, decodeStep, hgoodT, hgoodP, hb]

/-- C7 witness: the listener theorem applied to a concrete junk payload
followed by a decodable one, with registry {0, 1} and all sends
succeeding. -/
theorem listener_skips_malformed_witness :
    (fun s => if s = "E1J" then some "E1" else none) "junk" = none ∧
    listenerRun (fun s => if s = "E1J" then some "E1" else none) (fun _ => true)
      (wsRegister (wsRegister ∅ 0) 1)
      [PubSubMsg.mk "message" "junk", PubSubMsg.mk "message" "E1J"] =
      (wsRegister (wsRegister ∅ 0) 1,
        [("E1", wsRegister (wsRegister ∅ 0) 1)]) := by
  have h := listener_skips_malformed (fun s => if s = "E1J" then some "E1" else none)
    (fun _ => true) (wsRegister (wsRegister ∅ 0) 1)
    (PubSubMsg.mk "message" "junk") (PubSubMsg.mk "message" "E1J") [] "E1"
    rfl (by decide) rfl (by decide) (fun w _ => rfl)
  exact ⟨by decide, h.2⟩

theorem leadsChars_subset :
    ∀ (nd hy : List Char), leadsChars nd hy = true → ∀ c ∈ nd, c ∈ hy := by
  intro nd
  induction nd with
  | nil => intro hy _ c hc; simp at hc
  | cons x xs ih =>
    intro hy h c hc
    cases hy with
    | nil => simp [leadsChars] at h
    | cons d ds =>
      simp only [leadsChars, Bool.and_eq_true, beq_iff_eq] at h
      rcases List.mem_cons.mp hc with rfl | hc2
      · rw [h.1]; exact List.mem_cons_self d ds
      · exact List.mem_cons_of_mem d (ih ds h.2 c hc2)

theorem containsChars_subset :
    ∀ (hy nd : List Char), containsChars nd hy = true → ∀ c ∈ nd, c ∈ hy := by
  intro hy
  induction hy with
  | nil =>
    intro nd h c hc
    simp only [containsChars, List.isEmpty_iff] at h
    subst h
    simp at hc
  | cons d ds ih =>
    intro nd h c hc
    simp only [containsChars, Bool.or_eq_true] at h
    rcases h with h | h
    · exact leadsChars_subset nd (d :: ds) h c hc
    · exact List.mem_cons_of_mem d (ih nd h c hc)

theorem leadsChars_iff :
    ∀ (nd hy : List Char), leadsChars nd hy = true ↔ ∃ r, hy = nd ++ r := by
  intro nd
  induction nd with
  | nil => intro hy; simp [leadsChars]
  | cons x xs ih =>
    intro hy
    cases hy with
    | nil => simp [leadsChars]
    | cons d ds =>
      simp only [leadsChars, Bool.and_eq_true, beq_iff_eq, List.cons_append]
      constructor
      · rintro ⟨rfl, h⟩
        rcases (ih ds).mp h with ⟨r, hr⟩
        exact ⟨r, by rw [hr]⟩
      · rintro ⟨r, hr⟩
        injection hr with h1 h2
        exact ⟨h1.symm, (ih ds).mpr ⟨r, h2⟩⟩

theorem containsChars_iff :
    ∀ (hy nd : List Char),
      containsChars nd hy = true ↔ ∃ l r, hy = l ++ nd ++ r := by
  intro hy
  induction hy with
  | nil =>
    intro nd
    simp only [containsChars, List.isEmpty_iff]
    constructor
    · rintro rfl
      exact ⟨[], [], rfl⟩
    · rintro ⟨l, r, h⟩
      rcases List.append_eq_nil.mp h.symm with ⟨h3, _⟩
      rcases List.append_eq_nil.mp h3 with ⟨_, h5⟩
      exact h5
  | cons d ds ih =>
    intro nd
    simp only [containsChars, Bool.or_eq_true]
    constructor
    · rintro (h | h)
      · rcases (leadsChars_iff nd (d :: ds)).mp h with ⟨r, hr⟩
        exact ⟨[], r, by simpa using hr⟩
      · rcases (ih nd).mp h with ⟨l, r, hr⟩
        exact ⟨d :: l, r, by simp [hr]⟩
    · rintro ⟨l, r, hr⟩
      cases l with
      | nil =>
        left
        exact (leadsChars_iff nd (d :: ds)).mpr ⟨r, by simpa using hr⟩
      | cons x xs =>
        right
        have hr2 : d :: ds = x :: (xs ++ nd ++ r) := by simpa using hr
        injection hr2 with h1 h2
        exact (ih nd).mpr ⟨xs, r, h2⟩

theorem containsChars_count (nd hy : List Char) (c : Char)
    (h : containsChars nd hy = true) : nd.count c ≤ hy.count c := by
  rcases (containsChars_iff hy nd).mp h with ⟨l, r, rfl⟩
  simp only [List.count_append]
  omega

theorem containsChars_trans (m n h : List Char)
    (h1 : containsChars m n = true) (h2 : containsChars n h = true) :
    containsChars m h = true := by
  rcases (containsChars_iff n m).mp h1 with ⟨l1, r1, rfl⟩
  rcases (containsChars_iff h _).mp h2 with ⟨l2, r2, rfl⟩
  exact (containsChars_iff _ m).mpr
    ⟨l2 ++ l1, r1 ++ r2, by simp [List.append_assoc]⟩

theorem strContains_of_missing (hay needle : String) (c : Char)
    (hc : c ∈ needle.data) (hn : c ∉ hay.data) : strContains hay needle = false := by
  cases h : strContains hay needle with
  | false => rfl
  | true => exact absurd (containsChars_subset hay.data needle.data h c hc) hn

theorem noChar_shield (hay ip : String) (c : Char) (hc : c ∈ ip.data)
    (hh : c ∉ hay.data) : strContains hay ip = false ∧ hay ≠ ip := by
  refine ⟨strContains_of_missing hay ip c hc hh, ?_⟩
  intro he
  exact hh (he ▸ hc)

theorem strContains_count_shield (hay needle : String) (c : Char)
    (h : hay.data.count c < needle.data.count c) :
    strContains hay needle = false ∧ hay ≠ needle := by
  constructor
  · cases hs : strContains hay needle with
    | false => rfl
    | true =>
      have hle := containsChars_count needle.data hay.data c hs
      omega
  · intro he
    rw [he] at h
    omega

theorem strContains_inner_shield (hay needle : String) (inner : List Char)
    (h1 : containsChars inner needle.data = true)
    (h2 : containsChars inner hay.data = false) :
    strContains hay needle = false ∧ hay ≠ needle := by
  constructor
  · cases hs : strContains hay needle with
    | false => rfl
    | true =>
      have ht := containsChars_trans inner needle.data hay.data h1 hs
      rw [ht] at h2
      exact absurd h2 (by simp)
  · intro he
    rw [he, h1] at h2
    exact absurd h2 (by simp)

theorem hexChar_mem (n : Nat) : SHA256.hexChar n ∈ hexDigits := by
  unfold SHA256.hexChar
  split <;> decide

theorem sha256hex_chars (msg : List Nat) :
    ∀ c ∈ (SHA256.sha256hex msg).data, c ∈ hexDigits := by
  intro c hc
  have hc2 : c ∈ SHA256.bytesToHex (SHA256.sha256Bytes msg) := hc
  unfold SHA256.bytesToHex at hc2
  rcases List.mem_flatMap.mp hc2 with ⟨b, _, hb2⟩
  rcases List.mem_cons.mp hb2 with rfl | hb3
  · exact hexChar_mem _
  · rcases List.mem_cons.mp hb3 with rfl | hb4
    · exact hexChar_mem _
    · simp at hb4

theorem sep_not_in_sha256hex (msg : List Nat) (c : Char)
    (hc : c = '.' ∨ c = ':') : c ∉ (SHA256.sha256hex msg).data := by
  intro h
  have hmem := sha256hex_chars msg c h
  rcases hc with rfl | rfl
  · revert hmem
    decide
  · revert hmem
    decide

theorem map_categories_mem (cats : List Int) :
    map_categories_to_attack_type cats ∈
      ["Volumetric", "SYN Flood", "HTTP Flood", "Botnet-Driven"] := by
  induction cats with
  | nil => simp [map_categories_to_attack_type]
  | cons c rest ih =>
    simp only [map_categories_to_attack_type]
    cases h : ABUSEIPDB_CATEGORY_MAP c with
    | none => exact ih
    | some t =>
      unfold ABUSEIPDB_CATEGORY_MAP at h
      split_ifs at h <;> simp_all

theorem severity_mem (s : Rat) :
    confidence_to_severity s ∈ ["Critical", "High", "Medium", "Low"] := by
  unfold confidence_to_severity
  split_ifs <;> simp

theorem no_sep_of_mem_four (f : String) (c : Char)
    (hf : f ∈ ["Volumetric", "SYN Flood", "HTTP Flood", "Botnet-Driven"])
    (hc : c = '.' ∨ c = ':') : c ∉ f.data := by
  simp only [List.mem_cons, List.not_mem_nil, or_false] at hf
  rcases hc with rfl | rfl <;> rcases hf with rfl | rfl | rfl | rfl <;> decide

theorem no_sep_of_sev (f : String) (c : Char)
    (hf : f ∈ ["Critical", "High", "Medium", "Low"])
    (hc : c = '.' ∨ c = ':') : c ∉ f.data := by
  simp only [List.mem_cons, List.not_mem_nil, or_false] at hf
  rcases hc with rfl | rfl <;> rcases hf with rfl | rfl | rfl | rfl <;> decide

theorem orElseStr_cases (x y : Option String) (cc : String)
    (h : orElseStr x y = some cc) : x = some cc ∨ y = some cc := by
  cases x with
  | none => exact Or.inr h
  | some s =>
    simp only [orElseStr] at h
    by_cases hs : s = ""
    · rw [if_pos hs] at h
      exact Or.inr h
    · rw [if_neg hs] at h
      exact Or.inl h

/-- C4: hashing is deterministic (two entries with the same ipAddress get
the same source_ip_hash whatever their other fields or ambient values),
and the normalized Event's source_ip_hash is exactly the SHA-256 hex
digest of the entry's ipAddress. No string field of the Event equals or
contains the raw identifier, under hypotheses true of every real
execution: the identifier contains a separator character c that is a dot
or a colon (every textual IPv4 contains dots, every textual IPv6
contains colons), the generated uuid contains no such character, and
country codes contain none; the isoformat timestamp — which does contain
a dot before its microseconds — either has strictly fewer dots or colons
than the identifier (IPv4 and full-form IPv6) or lacks the adjacent
colon pair that every compressed IPv6 contains. -/
theorem normalize_entry_privacy (genId nowIso : String) (entry e2 : AbuseEntry)
    (src : Option String) (slat slng : Option Rat) (g2 t2 : String)
    (s2 : Option String) (l2 n2 : Option Rat) (a : AttackDict)
    (ha : a = normalize_abuseipdb_entry genId nowIso entry src slat slng)
    (ip : String) (hip : entry.ipAddress = some ip)
    (he2 : e2.ipAddress = entry.ipAddress)
    (c : Char) (hcip : c ∈ ip.data) (hcsep : c = '.' ∨ c = ':')
    (hcid : c ∉ genId.data)
    (hccs : ∀ cc, entry.countryCode = some cc → c ∉ cc.data)
    (hsrcs : ∀ cc, src = some cc → c ∉ cc.data) :
    (normalize_abuseipdb_entry g2 t2 e2 s2 l2 n2).source_ip_hash
      = a.source_ip_hash ∧
    a.source_ip_hash = SHA256.sha256hex (strBytes ip) ∧
    a.id = genId ∧ a.timestamp = nowIso ∧
    a.target_country = none ∧ a.protocol = none ∧
    (strContains a.source_ip_hash ip = false ∧ a.source_ip_hash ≠ ip) ∧
    (strContains a.id ip = false ∧ a.id ≠ ip) ∧
    (∀ cc, a.source_country = some cc →
      strContains cc ip = false ∧ cc ≠ ip) ∧
    strContains a.attack_type ip = false ∧
    strContains a.severity ip = false ∧
    strContains a.data_source ip = false ∧
    (nowIso.data.count '.' < ip.data.count '.' ∨
     nowIso.data.count ':' < ip.data.count ':' ∨
     (containsChars [':', ':'] ip.data = true ∧
      containsChars [':', ':'] nowIso.data = false) →
     strContains a.timestamp ip = false ∧ a.timestamp ≠ ip) := by
  have hraw : entry.ipAddress.getD "" = ip := by rw [hip]; rfl
  have hhash : a.source_ip_hash = SHA256.sha256hex (strBytes ip) := by
    rw [ha]
    show hash_ip (entry.ipAddress.getD "") = SHA256.sha256hex (strBytes ip)
    rw [hraw]
    rfl
  have hid : a.id = genId := by rw [ha]; rfl
  have htsv : a.timestamp = nowIso := by rw [ha]; rfl
  refine ⟨?_, hhash, hid, htsv, by rw [ha]; rfl, by rw [ha]; rfl, ?_, ?_, ?_,
    ?_, ?_, ?_, ?_⟩
  · show hash_ip (e2.ipAddress.getD "") = a.source_ip_hash
    rw [he2, ha]
    rfl
  · rw [hhash]
    exact noChar_shield _ ip c hcip (sep_not_in_sha256hex _ c hcsep)
  · rw [hid]
    exact noChar_shield genId ip c hcip hcid
  · intro cc hccm
    have hsc2 : a.source_country = orElseStr entry.countryCode src := by
      rw [ha]; rfl
    rw [hsc2] at hccm
    have hnd : c ∉ cc.data := by
      rcases orElseStr_cases entry.countryCode src cc hccm with h | h
      · exact hccs cc h
      · exact hsrcs cc h
    exact noChar_shield cc ip c hcip hnd
  · have hat : a.attack_type
        = map_categories_to_attack_type (entry.categories.getD []) := by
      rw [ha]; rfl
    rw [hat]
    exact (noChar_shield _ ip c hcip
      (no_sep_of_mem_four _ c (map_categories_mem _) hcsep)).1
  · have hsev : a.severity
        = confidence_to_severity (entry.abuseConfidenceScore.getD 0) := by
      rw [ha]; rfl
    rw [hsev]
    exact (noChar_shield _ ip c hcip
      (no_sep_of_sev _ c (severity_mem _) hcsep)).1
  · have hds : a.data_source = "abuseipdb" := by rw [ha]; rfl
    rw [hds]
    refine (noChar_shield _ ip c hcip ?_).1
    rcases hcsep with rfl | rfl
    · decide
    · decide
  · intro hdisj
    rw [htsv]
    rcases hdisj with h | h | ⟨h1, h2⟩
    · exact strContains_count_shield nowIso ip '.' h
    · exact strContains_count_shield nowIso ip ':' h
    · exact strContains_inner_shield nowIso ip [':', ':'] h1 h2

/-- C4 witness: the privacy theorem applied twice — to the IPv4 entry
1.2.3.4 with a real microsecond-bearing isoformat timestamp (one dot,
fewer than the identifier's three), and to the compressed IPv6 entry
2001:db8::1 (whose adjacent colon pair never occurs in the timestamp). -/
theorem normalize_entry_privacy_witness :
    '.' ∈ "1.2.3.4".data ∧ '.' ∈ isoTs.data ∧
    isoTs.data.count '.' < "1.2.3.4".data.count '.' ∧
    (normalize_abuseipdb_entry "uid-0001" isoTs entry0
        none none none).source_ip_hash = SHA256.sha256hex (strBytes "1.2.3.4") ∧
    strContains (normalize_abuseipdb_entry "uid-0001" isoTs entry0
        none none none).source_ip_hash "1.2.3.4" = false ∧
    strContains (normalize_abuseipdb_entry "uid-0001" isoTs entry0
        none none none).timestamp "1.2.3.4" = false ∧
    containsChars [':', ':'] "2001:db8::1".data = true ∧
    strContains (normalize_abuseipdb_entry "uid-0001" isoTs entry6
        none none none).timestamp "2001:db8::1" = false := by
  have h4 := normalize_entry_privacy "uid-0001" isoTs entry0 entry0
    none none none "g2" "t2" none none none _ rfl "1.2.3.4" rfl rfl
    '.' (by decide) (Or.inl rfl) (by decide)
    (by intro cc hc; simp only [entry0] at hc; injection hc with h2; subst h2; decide)
    (by intro cc hc; cases hc)
  have h6 := normalize_entry_privacy "uid-0001" isoTs entry6 entry6
    none none none "g2" "t2" none none none _ rfl "2001:db8::1" rfl rfl
    ':' (by decide) (Or.inr rfl) (by decide)
    (by intro cc hc; simp only [entry6] at hc; injection hc with h2; subst h2; decide)
    (by intro cc hc; cases hc)
  refine ⟨by decide, by decide, by decide, h4.2.1,
    (h4.2.2.2.2.2.2.1).1, ?_, by decide, ?_⟩
  · exact (h4.2.2.2.2.2.2.2.2.2.2.2.2 (Or.inl (by decide))).1
  · exact (h6.2.2.2.2.2.2.2.2.2.2.2.2 (Or.inr (Or.inr ⟨by decide, by decide⟩))).1

theorem normalizeKept_length :
    ∀ (l : List AbuseEntry) (f : Nat → String) (t : String),
      (normalizeKept f t l).length = l.length := by
  intro l
  induction l with
  | nil => intro f t; rfl
  | cons e rest ih =>
    intro f t
    simp only [normalizeKept, List.length_cons, ih]

/-- C3: normalization keeps exactly the entries whose confidence (default
0) is at least 80 — one Event per kept entry, in order — and drops the
rest silently: a below-threshold entry at the head leaves the rest of
the batch normalized exactly as if it were not there; a lone entry with
score below 80 yields the empty list while a lone entry with score at
least 80 yields exactly one Event. -/
theorem normalize_response_filter (freshIds : Nat → String) (nowIso : String)
    (low e : AbuseEntry) (rest : List AbuseEntry) (raw : AbuseResponse)
    (hlow : low.abuseConfidenceScore.getD 0 < 80)
    (he : 80 ≤ e.abuseConfidenceScore.getD 0) :
    (normalize_abuseipdb_response freshIds nowIso raw).length =
      raw.data.countP (fun x => 80 ≤ x.abuseConfidenceScore.getD 0) ∧
    normalize_abuseipdb_response freshIds nowIso ⟨low :: rest⟩ =
      normalize_abuseipdb_response freshIds nowIso ⟨rest⟩ ∧
    normalize_abuseipdb_response freshIds nowIso ⟨e :: rest⟩ =
      normalize_abuseipdb_entry (freshIds 0) nowIso e none none none ::
        normalize_abuseipdb_response (fun i => freshIds (i + 1)) nowIso ⟨rest⟩ ∧
    normalize_abuseipdb_response freshIds nowIso ⟨[low]⟩ = [] ∧
    (normalize_abuseipdb_response freshIds nowIso ⟨[e]⟩).length = 1 := by
  have hlowb : (fun x : AbuseEntry =>
      decide (80 ≤ x.abuseConfidenceScore.getD 0)) low = false := by
    simp only [decide_eq_false_iff_not]
    exact not_le.mpr hlow
  have heb : (fun x : AbuseEntry =>
      decide (80 ≤ x.abuseConfidenceScore.getD 0)) e = true := by
    simp only [decide_eq_true_eq]
    exact he
  have hdrop : ∀ l : List AbuseEntry,
      normalize_abuseipdb_response freshIds nowIso ⟨low :: l⟩ =
        normalize_abuseipdb_response freshIds nowIso ⟨l⟩ := by
    intro l
    unfold normalize_abuseipdb_response
    rw [List.filter_cons_of_neg
      (by simp only [decide_eq_true_eq]; exact not_le.mpr hlow)]
  have hkeep : ∀ l : List AbuseEntry,
      normalize_abuseipdb_response freshIds nowIso ⟨e :: l⟩ =
        normalize_abuseipdb_entry (freshIds 0) nowIso e none none none ::
          normalize_abuseipdb_response (fun i => freshIds (i + 1)) nowIso ⟨l⟩ := by
    intro l
    unfold normalize_abuseipdb_response
    rw [List.filter_cons_of_pos (by exact heb)]
    rfl
  refine ⟨?_, hdrop rest, hkeep rest, ?_, ?_⟩
  · unfold normalize_abuseipdb_response
    rw [normalizeKept_length, List.countP_eq_length_filter]
  · rw [hdrop []]
    rfl
  · rw [hkeep []]
    rfl

/-- C3 witness: the threshold theorem applied to a concrete entry with
score 79 (dropped, empty output) and one with score 80 (kept, one
Event). -/
theorem normalize_response_filter_witness :
    (AbuseEntry.mk (some "9.9.9.9") (some 79) none (some 1) (some [])
      ).abuseConfidenceScore.getD 0 < 80 ∧
    normalize_abuseipdb_response (fun _ => "id") "t"
      ⟨[AbuseEntry.mk (some "9.9.9.9") (some 79) none (some 1) (some [])]⟩ = [] ∧
    (normalize_abuseipdb_response (fun _ => "id") "t"
      ⟨[AbuseEntry.mk (some "5.6.7.8") (some 80) (some "US") (some 2)
          (some [4])]⟩).length = 1 := by
  have h := normalize_response_filter (fun _ => "id") "t"
    (AbuseEntry.mk (some "9.9.9.9") (some 79) none (some 1) (some []))
    (AbuseEntry.mk (some "5.6.7.8") (some 80) (some "US") (some 2) (some [4]))
    [] ⟨[]⟩ (by norm_num) (by norm_num)
  exact ⟨by norm_num, h.2.2.2.1, h.2.2.2.2⟩

theorem enrichSource_frame (table : String → Option (Rat × Rat))
    (b : AttackDict) :
    (enrichSource table b).id = b.id ∧
    (enrichSource table b).source_ip_hash = b.source_ip_hash ∧
    (enrichSource table b).source_country = b.source_country ∧
    (enrichSource table b).target_country = b.target_country ∧
    (enrichSource table b).target_lat = b.target_lat ∧
    (enrichSource table b).target_lng = b.target_lng ∧
    (enrichSource table b).attack_type = b.attack_type ∧
    (enrichSource table b).severity = b.severity ∧
    (enrichSource table b).confidence_score = b.confidence_score ∧
    (enrichSource table b).raw_report_count = b.raw_report_count ∧
    (enrichSource table b).data_source = b.data_source ∧
    (enrichSource table b).protocol = b.protocol ∧
    (enrichSource table b).volume_bps = b.volume_bps ∧
    (enrichSource table b).timestamp = b.timestamp := by
  unfold enrichSource
  split
  · exact ⟨rfl, rfl, rfl, rfl, rfl, rfl, rfl, rfl, rfl, rfl, rfl, rfl, rfl, rfl⟩
  · exact ⟨rfl, rfl, rfl, rfl, rfl, rfl, rfl, rfl, rfl, rfl, rfl, rfl, rfl, rfl⟩

theorem enrichTarget_frame (table : String → Option (Rat × Rat))
    (b : AttackDict) :
    (enrichTarget table b).id = b.id ∧
    (enrichTarget table b).source_ip_hash = b.source_ip_hash ∧
    (enrichTarget table b).source_country = b.source_country ∧
    (enrichTarget table b).source_lat = b.source_lat ∧
    (enrichTarget table b).source_lng = b.source_lng ∧
    (enrichTarget table b).target_country = b.target_country ∧
    (enrichTarget table b).attack_type = b.attack_type ∧
    (enrichTarget table b).severity = b.severity ∧
    (enrichTarget table b).confidence_score = b.confidence_score ∧
    (enrichTarget table b).raw_report_count = b.raw_report_count ∧
    (enrichTarget table b).data_source = b.data_source ∧
    (enrichTarget table b).protocol = b.protocol ∧
    (enrichTarget table b).volume_bps = b.volume_bps ∧
    (enrichTarget table b).timestamp = b.timestamp := by
  unfold enrichTarget
  split
  · exact ⟨rfl, rfl, rfl, rfl, rfl, rfl, rfl, rfl, rfl, rfl, rfl, rfl, rfl, rfl⟩
  · exact ⟨rfl, rfl, rfl, rfl, rfl, rfl, rfl, rfl, rfl, rfl, rfl, rfl, rfl, rfl⟩

theorem enrichSource_skip (table : String → Option (Rat × Rat))
    (b : AttackDict) (h : truthyRat b.source_lat = true) :
    enrichSource table b = b := by
  unfold enrichSource
  rw [h]
  simp

theorem enrichTarget_skip (table : String → Option (Rat × Rat))
    (b : AttackDict) (h : truthyRat b.target_lat = true) :
    enrichTarget table b = b := by
  unfold enrichTarget
  rw [h]
  simp

theorem enrichSource_noop_miss (table : String → Option (Rat × Rat))
    (b : AttackDict) (hb1 : b.source_lat = none) (hb2 : b.source_lng = none)
    (htm : ∀ cc, b.source_country = some cc → table (pyUpper cc) = none) :
    (enrichSource table b).source_lat = none ∧
    (enrichSource table b).source_lng = none := by
  unfold enrichSource
  cases hc : b.source_country with
  | none => simp [truthyStr, hc, hb1, hb2]
  | some cc =>
    by_cases hcc : cc = ""
    · subst hcc
      simp [truthyStr, hc, hb1, hb2]
    · have hmiss := htm cc hc
      simp [truthyStr, truthyRat, hc, hcc, hb1, hb2, get_coords_for_country,
        hmiss]

theorem enrichTarget_noop_miss (table : String → Option (Rat × Rat))
    (b : AttackDict) (hb1 : b.target_lat = none) (hb2 : b.target_lng = none)
    (htm : ∀ cc, b.target_country = some cc → table (pyUpper cc) = none) :
    (enrichTarget table b).target_lat = none ∧
    (enrichTarget table b).target_lng = none := by
  unfold enrichTarget
  cases hc : b.target_country with
  | none => simp [truthyStr, hc, hb1, hb2]
  | some cc =>
    by_cases hcc : cc = ""
    · subst hcc
      simp [truthyStr, hc, hb1, hb2]
    · have hmiss := htm cc hc
      simp [truthyStr, truthyRat, hc, hcc, hb1, hb2, get_coords_for_country,
        hmiss]

/-- C9 counterexample: a source latitude stored as 0 (the equator) is a
set coordinate, yet the code's falsy-valued guard treats it as unset and
overwrites both source coordinates with the table centroid. -/
theorem enrich_overwrites_set_zero_counterexample :
    demoAttack.source_lat = some 0 ∧
    (enrich_attack_with_geo demoTable demoAttack).source_lat = some 35 ∧
    (enrich_attack_with_geo demoTable demoAttack).source_lng = some 103 ∧
    ¬ ((35 : Rat) = 0) := by
  decide

/-- C9 amended: enrichment fills a side's coordinates only when that
side's stored latitude is null or zero. A side whose latitude is set to
a nonzero value keeps both its coordinates; no field other than the four
coordinate fields ever changes; and when the table has no entry for the
side's region code and both of that side's coordinates are null, the
call leaves that side's coordinates null (a no-op there). -/
theorem enrich_fills_only_unset (table : String → Option (Rat × Rat))
    (a : AttackDict) (v w : Rat) (hv : a.source_lat = some v) (hv0 : v ≠ 0)
    (hw : a.target_lat = some w) (hw0 : w ≠ 0) :
    ((enrich_attack_with_geo table a).source_lat = a.source_lat ∧
     (enrich_attack_with_geo table a).source_lng = a.source_lng) ∧
    ((enrich_attack_with_geo table a).target_lat = a.target_lat ∧
     (enrich_attack_with_geo table a).target_lng = a.target_lng) ∧
    (∀ b : AttackDict,
      (enrich_attack_with_geo table b).id = b.id ∧
      (enrich_attack_with_geo table b).source_ip_hash = b.source_ip_hash ∧
      (enrich_attack_with_geo table b).source_country = b.source_country ∧
      (enrich_attack_with_geo table b).target_country = b.target_country ∧
      (enrich_attack_with_geo table b).attack_type = b.attack_type ∧
      (enrich_attack_with_geo table b).severity = b.severity ∧
      (enrich_attack_with_geo table b).confidence_score = b.confidence_score ∧
      (enrich_attack_with_geo table b).raw_report_count = b.raw_report_count ∧
      (enrich_attack_with_geo table b).data_source = b.data_source ∧
      (enrich_attack_with_geo table b).protocol = b.protocol ∧
      (enrich_attack_with_geo table b).volume_bps = b.volume_bps ∧
      (enrich_attack_with_geo table b).timestamp = b.timestamp) ∧
    (∀ b : AttackDict, b.source_lat = none → b.source_lng = none →
      (∀ cc, b.source_country = some cc → table (pyUpper cc) = none) →
      (enrich_attack_with_geo table b).source_lat = none ∧
      (enrich_attack_with_geo table b).source_lng = none) ∧
    (∀ b : AttackDict, b.target_lat = none → b.target_lng = none →
      (∀ cc, b.target_country = some cc → table (pyUpper cc) = none) →
      (enrich_attack_with_geo table b).target_lat = none ∧
      (enrich_attack_with_geo table b).target_lng = none) := by
  have hvt : truthyRat a.source_lat = true := by
    rw [hv]; simp [truthyRat, hv0]
  have hwt : truthyRat a.target_lat = true := by
    rw [hw]; simp [truthyRat, hw0]
  have hsrc : enrichSource table a = a := enrichSource_skip table a hvt
  refine ⟨?_, ?_, ?_, ?_, ?_⟩
  · unfold enrich_attack_with_geo
    rw [hsrc]
    exact ⟨(enrichTarget_frame table a).2.2.2.1, (enrichTarget_frame table a).2.2.2.2.1⟩
  · unfold enrich_attack_with_geo
    rw [hsrc, enrichTarget_skip table a hwt]
    exact ⟨rfl, rfl⟩
  · intro b
    have hS := enrichSource_frame table b
    have hT := enrichTarget_frame table (enrichSource table b)
    unfold enrich_attack_with_geo
    exact ⟨hT.1.trans hS.1,
      hT.2.1.trans hS.2.1,
      hT.2.2.1.trans hS.2.2.1,
      hT.2.2.2.2.2.1.trans hS.2.2.2.1,
      hT.2.2.2.2.2.2.1.trans hS.2.2.2.2.2.2.1,
      hT.2.2.2.2.2.2.2.1.trans hS.2.2.2.2.2.2.2.1,
      hT.2.2.2.2.2.2.2.2.1.trans hS.2.2.2.2.2.2.2.2.1,
      hT.2.2.2.2.2.2.2.2.2.1.trans hS.2.2.2.2.2.2.2.2.2.1,
      hT.2.2.2.2.2.2.2.2.2.2.1.trans hS.2.2.2.2.2.2.2.2.2.2.1,
      hT.2.2.2.2.2.2.2.2.2.2.2.1.trans hS.2.2.2.2.2.2.2.2.2.2.2.1,
      hT.2.2.2.2.2.2.2.2.2.2.2.2.1.trans hS.2.2.2.2.2.2.2.2.2.2.2.2.1,
      hT.2.2.2.2.2.2.2.2.2.2.2.2.2.trans hS.2.2.2.2.2.2.2.2.2.2.2.2.2⟩
  · intro b hb1 hb2 htm
    have hS := enrichSource_noop_miss table b hb1 hb2 htm
    have hT := enrichTarget_frame table (enrichSource table b)
    unfold enrich_attack_with_geo
    exact ⟨hT.2.2.2.1.trans hS.1, hT.2.2.2.2.1.trans hS.2⟩
  · intro b hb1 hb2 htm
    have hS := enrichSource_frame table b
    have hT := enrichTarget_noop_miss table (enrichSource table b)
      (hS.2.2.2.2.1.trans hb1) (hS.2.2.2.2.2.1.trans hb2)
      (fun cc hcc => htm cc ((hS.2.2.2.1).symm.trans hcc))
    exact hT

/-- C9 witness: the amended theorem applied to a concrete attack whose
source latitude is 10 and target latitude is 20: enrichment changes
nothing on either side and preserves every non-coordinate field. -/
theorem enrich_fills_only_unset_witness :
    demoAttack2.source_lat = some 10 ∧ (10 : Rat) ≠ 0 ∧
    (enrich_attack_with_geo demoTable demoAttack2).source_lat
      = demoAttack2.source_lat ∧
    (enrich_attack_with_geo demoTable demoAttack2).target_lat
      = demoAttack2.target_lat ∧
    (enrich_attack_with_geo demoTable demoAttack2).id = demoAttack2.id := by
  have h := enrich_fills_only_unset demoTable demoAttack2 10 20 rfl
    (by norm_num) rfl (by norm_num)
  exact ⟨rfl, by norm_num, h.1.1, h.2.1.1, (h.2.2.1 demoAttack2).1⟩

end DDoSMonitor
